import Mathlib

/-!
Shallow embedding of the geometric core of a beam-envelope 3D visualisation
script: envelope sizing, cross-section generators (ellipse, discrete-polygon
screen, rectangular screen), ruled-surface meshing, and the beam-size and
aperture pipelines.

Machine floats are modelled by real numbers.  A numpy operation that raises
at runtime (np.hstack of an empty list, out-of-range indexing) is modelled
by Option.none.  The mesher is polymorphic in the vertex type because the
source only rearranges the vertex array; theorems instantiate it at 3D
points.
-/

/-- A 3D point, as one row of a numpy array of shape (_, 3). -/
abbrev Point : Type := ℝ × ℝ × ℝ

/-- scipy Rotation.from_euler applied to one point for the single Euler
axis z and angle theta: rotation in the first two coordinates, third
coordinate unchanged. -/
noncomputable def rotZ (theta : ℝ) (p : Point) : Point :=
  (p.1 * Real.cos theta - p.2.1 * Real.sin theta,
   p.1 * Real.sin theta + p.2.1 * Real.cos theta,
   p.2.2)

/-- Adding np.tile([x, y, z], (n, 1)) to a point array, one point at a
time: componentwise translation. -/
noncomputable def translateP (c : Point) (p : Point) : Point :=
  (p.1 + c.1, p.2.1 + c.2.1, p.2.2 + c.2.2)

/-- np.linspace a b n with the default endpoint=True: n samples
a + (b - a) * k / (n - 1) for k = 0, ..., n - 1, both endpoints included. -/
noncomputable def linspace (a b : ℝ) (n : ℕ) : List ℝ :=
  (List.range n).map (fun k : ℕ => a + (b - a) * (k : ℝ) / ((n : ℝ) - 1))

/-- The pre-rotation point list of the ellipse generator:
(rxy cos t + beam_xy, 0, rz sin t + beam_z) for t over
np.linspace(0, 2 pi, 20). -/
noncomputable def ellipse_points_xz (rxy rz beam_xy beam_z : ℝ) : List Point :=
  (linspace 0 (2 * Real.pi) 20).map
    (fun t => (rxy * Real.cos t + beam_xy, 0, rz * Real.sin t + beam_z))

/-- The ellipse cross-section generator: the pre-rotation samples rotated
about the z axis by theta and translated by the centre (x, y, z). -/
noncomputable def ellipse (rxy rz beam_xy beam_z x y z theta : ℝ) : List Point :=
  ((ellipse_points_xz rxy rz beam_xy beam_z).map (rotZ theta)).map
    (translateP (x, y, z))

/-- The pre-rotation point list of the beam-screen generator:
np.column_stack([xs, zeros, ys]).  (In the source the two input arrays
always have equal length; zip keeps the common prefix.) -/
noncomputable def make_screen_points_xz (xs ys : List ℝ) : List Point :=
  (xs.zip ys).map (fun q => (q.1, 0, q.2))

/-- The discrete-polygon beam-screen generator. -/
noncomputable def make_screen (xs ys : List ℝ) (x y z theta : ℝ) : List Point :=
  ((make_screen_points_xz xs ys).map (rotZ theta)).map (translateP (x, y, z))

/-- The pre-rotation corner list of the rectangular screen generator; when
close is false the source overwrites x_max with 0 before building it. -/
noncomputable def rect_points_xz (x_min x_max y_min y_max : ℝ) (close : Bool) : List Point :=
  let xm := if close then x_max else 0
  [(xm, 0, y_min), (x_min, 0, y_min), (x_min, 0, y_max), (xm, 0, y_max)]

/-- The rectangular beam-screen generator. -/
noncomputable def make_rectangular_screen (x_min x_max y_min y_max x y z theta : ℝ)
    (close : Bool) : List Point :=
  ((rect_points_xz x_min x_max y_min y_max close).map (rotZ theta)).map
    (translateP (x, y, z))

/-- One face record of the mesher: the pyvista arity marker 4 followed by
the four flattened vertex indices i, i+1, P+i+1, P+i. -/
def quad_face (points_per_poly i : ℕ) : List ℕ :=
  [4, i, i + 1, points_per_poly + i + 1, points_per_poly + i]

/-- A pyvista PolyData surface: flattened vertex buffer plus face list. -/
structure PolyMesh (α : Type) where
  vertices : List α
  faces : List (List ℕ)

/-- The ruled-surface mesher.  Mirrors the source: num_faces is
points_per_poly * (num_polys - 1) - 1 (note the trailing -1; with natural
subtraction a negative Python value also yields an empty range), the face
list keeps index i only when close or i % points_per_poly is not
points_per_poly - 1, and np.hstack raises on an empty list, modelled as
none. -/
def mesh_from_polygons {α : Type} (pts : List (List α)) (close : Bool) :
    Option (PolyMesh α) :=
  let num_polys := pts.length
  let points_per_poly := (pts.headD []).length
  let vertices := pts.flatten
  let num_faces := points_per_poly * (num_polys - 1) - 1
  let fs := ((List.range num_faces).filter
      (fun i => close || !(i % points_per_poly == points_per_poly - 1))).map
    (quad_face points_per_poly)
  if fs.isEmpty then none else some ⟨vertices, fs⟩

/-- Normalized horizontal emittance constant from the source. -/
noncomputable def nemitt_x : ℝ := 2.5e-6

/-- Normalized vertical emittance constant from the source. -/
noncomputable def nemitt_y : ℝ := 2.5e-6

/-- Envelope confidence width multiple from the source. -/
noncomputable def n_sigmas : ℝ := 3

/-- Energy-spread parameter from the source. -/
noncomputable def sigma_delta : ℝ := 8e-4

/-- One row of the twiss (optics) table, the columns compute_beam_size
reads.  The source reads gamma0 from the table once; modelling it per row
subsumes the scalar broadcast. -/
structure TwissRow where
  s : ℝ
  x : ℝ
  y : ℝ
  betx : ℝ
  bety : ℝ
  dx : ℝ
  dy : ℝ
  gamma0 : ℝ

/-- One row of the survey table, the columns compute_beam_size reads. -/
structure SurveyRow where
  X : ℝ
  Y : ℝ
  Z : ℝ
  theta : ℝ

/-- The horizontal envelope half-width of one slice:
sigx = n_sigmas * sqrt(nemitt_x / gamma0 * betx) + |dx| * sigma_delta. -/
noncomputable def sigx_of (gamma0 betx dx : ℝ) : ℝ :=
  n_sigmas * Real.sqrt (nemitt_x / gamma0 * betx) + |dx| * sigma_delta

/-- The vertical envelope half-width of one slice:
sigy = n_sigmas * sqrt(nemitt_y / gamma0 * bety) + |dy| * sigma_delta. -/
noncomputable def sigy_of (gamma0 bety dy : ℝ) : ℝ :=
  n_sigmas * Real.sqrt (nemitt_y / gamma0 * bety) + |dy| * sigma_delta

/-- The envelope sizer: elementwise over the two tables, returning the
tuple (s, x, sigx, y, sigy, sx, sy, sz, theta) of column arrays exactly as
the source does (twiss-derived arrays keep the twiss length, survey-derived
arrays the survey length). -/
noncomputable def compute_beam_size (survey : List SurveyRow) (twiss : List TwissRow) :
    List ℝ × List ℝ × List ℝ × List ℝ × List ℝ ×
      List ℝ × List ℝ × List ℝ × List ℝ :=
  (twiss.map (fun r => r.s),
   twiss.map (fun r => r.x),
   twiss.map (fun r => sigx_of r.gamma0 r.betx r.dx),
   twiss.map (fun r => r.y),
   twiss.map (fun r => sigy_of r.gamma0 r.bety r.dy),
   survey.map (fun r => r.X),
   survey.map (fun r => r.Y),
   survey.map (fun r => r.Z),
   survey.map (fun r => r.theta))

/-- One closed-orbit centerline point, as assembled by np.column_stack in
plot_beam_size: (sx + cos(theta) x scale, sz + sin(theta) x scale,
sy + y scale). -/
noncomputable def orbit_center_point (scale sxi szi syi thetai xi yi : ℝ) : Point :=
  (sxi + Real.cos thetai * xi * scale,
   szi + Real.sin thetai * xi * scale,
   syi + yi * scale)

/-- One slice of the envelope surface built by plot_beam_size: the ellipse
call at index i, with the argument order of the source (including the
sz/sy swap).  Indexing is guarded: none models a Python IndexError. -/
noncomputable def beam_ellipse_at (sigx sigy x y sx sy sz theta : List ℝ)
    (scale : ℝ) (i : ℕ) : Option (List Point) := do
  let sigxi ← sigx[i]?
  let sigyi ← sigy[i]?
  let xi ← x[i]?
  let yi ← y[i]?
  let sxi ← sx[i]?
  let syi ← sy[i]?
  let szi ← sz[i]?
  let thetai ← theta[i]?
  pure (ellipse (sigxi * scale) (sigyi * scale) (xi * scale) (yi * scale)
    sxi szi syi thetai)

/-- One closed-orbit centerline point of plot_beam_size at index i, with
guarded indexing. -/
noncomputable def orbit_center_at (x y sx sy sz theta : List ℝ) (scale : ℝ)
    (i : ℕ) : Option Point := do
  let xi ← x[i]?
  let yi ← y[i]?
  let sxi ← sx[i]?
  let syi ← sy[i]?
  let szi ← sz[i]?
  let thetai ← theta[i]?
  pure (orbit_center_point scale sxi szi syi thetai xi yi)

/-- The data-producing part of plot_beam_size: run the envelope sizer,
truncate to min_len = min(len(x), len(theta)), and build the per-slice
ellipse cross-sections and the orbit centerline points. -/
noncomputable def plot_beam_size_pts (twiss : List TwissRow) (survey : List SurveyRow)
    (scale : ℝ) : Option (List (List Point) × List Point) :=
  match compute_beam_size survey twiss with
  | (_s, x, sigx, y, sigy, sx, sy, sz, theta) =>
    let min_len := min x.length theta.length
    (do
      let pts ← (List.range min_len).mapM
        (beam_ellipse_at sigx sigy x y sx sy sz theta scale)
      let center ← (List.range min_len).mapM (orbit_center_at x y sx sy sz theta scale)
      pure (pts, center))

/-- np.where(mask)[0]: the indices of the true entries of the mask, in
increasing order. -/
def aper_indices (mask : List Bool) : List ℕ :=
  ((mask.enum.filter (fun q => q.2)).map (fun q => q.1))

/-- The beam screen plot_apertures builds for row i: polygon coordinates
scaled, with the sz/sy argument swap of the source; indexing into the
parallel column arrays is guarded (none models a Python IndexError). -/
noncomputable def make_screen_at (xs ys : List (List ℝ)) (sx sy sz theta : List ℝ)
    (scale : ℝ) (i : ℕ) : Option (List Point) := do
  let xsi ← xs[i]?
  let ysi ← ys[i]?
  let sxi ← sx[i]?
  let syi ← sy[i]?
  let szi ← sz[i]?
  let thetai ← theta[i]?
  pure (make_screen (xsi.map (fun v => v * scale)) (ysi.map (fun v => v * scale))
    sxi szi syi thetai)

/-- The data-producing part of plot_apertures: keep exactly the rows whose
aperture_mask entry is true (np.where) and build a beam screen for each. -/
noncomputable def plot_apertures_pts (mask : List Bool) (xs ys : List (List ℝ))
    (sx sy sz theta : List ℝ) (scale : ℝ) : Option (List (List Point)) :=
  (aper_indices mask).mapM (make_screen_at xs ys sx sy sz theta scale)

/-- Modelled from the spec (for comparison with quad_face): the face the
spec describes for slice i and vertex j, with wraparound j+1 mod P inside
the slice. -/
def spec_face (points_per_poly k j : ℕ) : List ℕ :=
  [4, k * points_per_poly + j,
   k * points_per_poly + (j + 1) % points_per_poly,
   (k + 1) * points_per_poly + (j + 1) % points_per_poly,
   (k + 1) * points_per_poly + j]

/-! ## Helper lemmas -/

/-- A concrete point used by witnesses and counterexamples. -/
noncomputable def pt0 : Point := (0, 0, 0)

lemma length_filter_range_ne (n k : ℕ) :
    ((List.range n).filter (fun i => !(i == k))).length = n - (if k < n then 1 else 0) := by
  induction n with
  | zero => simp
  | succ n ih =>
    rw [List.range_succ, List.filter_append, List.length_append, ih]
    by_cases h : n = k
    · subst h
      have hb : (!(n == n)) = false := by simp
      simp only [List.filter_cons, hb, Bool.false_eq_true, if_false, List.filter_nil,
        List.length_nil]
      have h1 : n < n + 1 := by omega
      simp only [h1, if_true]
      by_cases hk : n < n
      · omega
      · simp only [hk, if_false]
        omega
    · have hb : (!(n == k)) = true := by simp [h]
      simp only [List.filter_cons, hb, if_true, List.filter_nil, List.length_cons,
        List.length_nil]
      by_cases hk : k < n
      · have h2 : k < n + 1 := by omega
        simp only [hk, h2, if_true]
        omega
      · have h2 : ¬ k < n + 1 := by omega
        simp only [hk, h2, if_false]
        omega

lemma length_filter_blocks (P : ℕ) (hP : 1 ≤ P) (k : ℕ) :
    ((List.range (P * k)).filter (fun i => !(i % P == P - 1))).length = (P - 1) * k := by
  induction k with
  | zero => simp
  | succ k ih =>
    rw [Nat.mul_succ, List.range_add, List.filter_append, List.length_append, ih]
    have hmap : (List.filter (fun i => !(i % P == P - 1))
        (List.map (fun x => P * k + x) (List.range P))).length
        = ((List.range P).filter (fun i => !(i == P - 1))).length := by
      rw [← List.countP_eq_length_filter, List.countP_map, ← List.countP_eq_length_filter]
      apply List.countP_congr
      intro i hi
      have hilt : i < P := List.mem_range.mp hi
      have hmod : (P * k + i) % P = i := by
        rw [Nat.mul_add_mod]
        exact Nat.mod_eq_of_lt hilt
      simp [Function.comp, hmod]
    rw [hmap, length_filter_range_ne]
    have h1 : P - 1 < P := by omega
    simp only [h1, if_true]
    rw [Nat.mul_succ]

lemma length_filter_open_faces (P m : ℕ) (hP : 2 ≤ P) (hm : 1 ≤ m) :
    ((List.range (P * m - 1)).filter (fun i => !(i % P == P - 1))).length
      = (P - 1) * m := by
  obtain ⟨m, rfl⟩ : ∃ m2, m = m2 + 1 := ⟨m - 1, by omega⟩
  have hsplit : P * (m + 1) - 1 = P * m + (P - 1) := by
    rw [Nat.mul_succ]
    omega
  rw [hsplit, List.range_add, List.filter_append, List.length_append,
    length_filter_blocks P (by omega) m]
  have hall : List.filter (fun i => !(i % P == P - 1))
      (List.map (fun x => P * m + x) (List.range (P - 1)))
      = List.map (fun x => P * m + x) (List.range (P - 1)) := by
    rw [List.filter_eq_self]
    intro a ha
    obtain ⟨i, hi, rfl⟩ := List.mem_map.mp ha
    have hilt : i < P - 1 := List.mem_range.mp hi
    have hmod : (P * m + i) % P = i := by
      rw [Nat.mul_add_mod]
      exact Nat.mod_eq_of_lt (by omega)
    simp only [hmod, Bool.not_eq_eq_eq_not, Bool.not_true, beq_eq_false_iff_ne,
      ne_eq]
    omega
  rw [hall, List.length_map, List.length_range, Nat.mul_succ]

/-! ## Claim C1 -/

/-- Claim C1 counterexample: for the closed mesher on a 2-slice, 2-point
input (N = 2, P = 2) the claim predicts P*(N-1) = 2 faces, but the source
produces points_per_poly * (num_polys - 1) - 1 = 1 face. -/
theorem mesher_closed_two_by_two_cex :
    (mesh_from_polygons [[pt0, pt0], [pt0, pt0]] true).map (fun m => m.faces.length)
      = some 1 ∧ (1 : ℕ) ≠ 2 * (2 - 1) := ⟨rfl, by decide⟩

/-- Claim C1 (amended): for an input of shape [N][P][3] with N >= 2 and
P >= 1, the closed mesher produces exactly P*(N-1) - 1 quadrilateral faces
when P*(N-1) >= 2, and fails (np.hstack on an empty face list) when
P*(N-1) <= 1. -/
theorem mesher_closed_face_count {α : Type} (pts : List (List α)) (N P : ℕ)
    (hN : pts.length = N) (hP : ∀ q ∈ pts, q.length = P) (h2 : 2 ≤ N) (hP1 : 1 ≤ P) :
    (2 ≤ P * (N - 1) →
      ∃ m, mesh_from_polygons pts true = some m ∧
        m.faces.length = P * (N - 1) - 1) ∧
    (P * (N - 1) ≤ 1 → mesh_from_polygons pts true = none) := by
  obtain ⟨q, rest, rfl⟩ : ∃ q rest, pts = q :: rest := by
    cases pts with
    | nil =>
      rw [List.length_nil] at hN
      omega
    | cons q rest => exact ⟨q, rest, rfl⟩
  have hq : q.length = P := hP q (List.mem_cons_self q rest)
  have hlen : (q :: rest).length - 1 = rest.length := by
    rw [List.length_cons]
    omega
  have hNr : N - 1 = rest.length := by
    rw [← hN, hlen]
  have hfilter : (List.range (P * rest.length - 1)).filter
      (fun i => true || !(i % P == P - 1)) = List.range (P * rest.length - 1) := by
    rw [List.filter_eq_self]
    intro a _
    simp
  simp only [mesh_from_polygons, List.headD_cons, hq, hlen, hNr, hfilter]
  constructor
  · intro hge
    have hnil : (List.range (P * rest.length - 1)).map (quad_face P) ≠ [] := by
      intro hcon
      have := congrArg List.length hcon
      simp only [List.length_map, List.length_range, List.length_nil] at this
      omega
    rw [if_neg (by rw [List.isEmpty_iff]; exact hnil)]
    refine ⟨_, rfl, ?_⟩
    simp only [List.length_map, List.length_range]
  · intro hle
    have hzero : P * rest.length - 1 = 0 := by omega
    rw [hzero]
    simp

/-- Witness for mesher_closed_face_count, at a concrete 2-slice, 2-point
input. -/
theorem mesher_closed_face_count_witness :
    (2 ≤ 2 * (2 - 1) →
      ∃ m, mesh_from_polygons [[pt0, pt0], [pt0, pt0]] true = some m ∧
        m.faces.length = 2 * (2 - 1) - 1) ∧
    (2 * (2 - 1) ≤ 1 → mesh_from_polygons [[pt0, pt0], [pt0, pt0]] true = none) :=
  mesher_closed_face_count [[pt0, pt0], [pt0, pt0]] 2 2 rfl
    (by intro q hq; fin_cases hq <;> rfl) (by decide) (by decide)

/-! ## Claim C5 -/

/-- Claim C5 counterexample: a single-slice input does not yield an empty
mesh; the face list is empty and np.hstack raises (modelled as none). -/
theorem mesher_single_slice_cex :
    mesh_from_polygons [[pt0, pt0, pt0]] true = none := rfl

/-- Claim C5 (amended): with fewer than two slices the mesher produces no
quadrilateral faces, but it fails (np.hstack of the empty face list raises)
instead of returning an empty mesh. -/
theorem mesher_few_slices_none {α : Type} (pts : List (List α)) (close : Bool)
    (h : pts.length < 2) : mesh_from_polygons pts close = none := by
  have hzero : pts.length - 1 = 0 := by omega
  simp [mesh_from_polygons, hzero]

/-- Witness for mesher_few_slices_none, at a concrete one-slice input. -/
theorem mesher_few_slices_none_witness :
    mesh_from_polygons [[pt0, pt0]] false = none :=
  mesher_few_slices_none [[pt0, pt0]] false (by decide)

/-! ## Claim C3 -/

/-- Claim C3 counterexample: for N = 2 slices of P = 1 point with
closed=False the claim predicts a mesh with (P-1)*(N-1) = 0 faces, but the
source filters out every face index and np.hstack raises on the empty list
(modelled as none): no mesh is produced at all. -/
theorem mesher_open_single_point_cex :
    mesh_from_polygons [[pt0], [pt0]] false = none := rfl

/-- Claim C3 (amended): for an input of shape [N][P][3] with N >= 2, the
open mesher (closed=False) produces exactly (P-1)*(N-1) quadrilateral faces
when P >= 2 — per consecutive slice pair it omits the face at the last
vertex position (face index i with i mod P = P-1) — while for P = 1 every
face index is filtered out and the construction fails (none). -/
theorem mesher_open_face_count {α : Type} (pts : List (List α)) (N P : ℕ)
    (hN : pts.length = N) (hP : ∀ q ∈ pts, q.length = P) (h2 : 2 ≤ N) :
    (2 ≤ P →
      ∃ m, mesh_from_polygons pts false = some m ∧
        m.faces.length = (P - 1) * (N - 1)) ∧
    (P = 1 → mesh_from_polygons pts false = none) := by
  obtain ⟨q, rest, rfl⟩ : ∃ q rest, pts = q :: rest := by
    cases pts with
    | nil =>
      rw [List.length_nil] at hN
      omega
    | cons q rest => exact ⟨q, rest, rfl⟩
  have hq : q.length = P := hP q (List.mem_cons_self q rest)
  have hlen : (q :: rest).length - 1 = rest.length := by
    rw [List.length_cons]
    omega
  have hNr : N - 1 = rest.length := by
    rw [← hN, hlen]
  have hrest : 1 ≤ rest.length := by
    rw [← hNr]
    omega
  have hfalse : ∀ F : ℕ, (List.range F).filter (fun i => false || !(i % P == P - 1))
      = (List.range F).filter (fun i => !(i % P == P - 1)) := by
    intro F
    apply List.filter_congr
    intro a _
    rw [Bool.false_or]
  simp only [mesh_from_polygons, List.headD_cons, hq, hlen, hNr, hfalse]
  constructor
  · intro hge
    have hcount : ((List.range (P * rest.length - 1)).filter
        (fun i => !(i % P == P - 1))).length = (P - 1) * rest.length :=
      length_filter_open_faces P rest.length hge hrest
    have hnil : ((List.range (P * rest.length - 1)).filter
        (fun i => !(i % P == P - 1))).map (quad_face P) ≠ [] := by
      intro hcon
      have := congrArg List.length hcon
      rw [List.length_map, hcount, List.length_nil] at this
      have : 1 ≤ (P - 1) * rest.length := Nat.one_le_iff_ne_zero.mpr (by
        intro hz
        rcases Nat.mul_eq_zero.mp hz with h | h
        · omega
        · omega)
      omega
    rw [if_neg (by rw [List.isEmpty_iff]; exact hnil)]
    refine ⟨_, rfl, ?_⟩
    rw [List.length_map, hcount]
  · intro hone
    subst hone
    have hempty : (List.range (1 * rest.length - 1)).filter
        (fun i => !(i % 1 == 1 - 1)) = [] := by
      rw [List.filter_eq_nil_iff]
      intro a _
      simp [Nat.mod_one]
    rw [hempty]
    simp

/-- Witness for mesher_open_face_count, at a concrete 2-slice, 3-point
input. -/
theorem mesher_open_face_count_witness :
    (2 ≤ 3 →
      ∃ m, mesh_from_polygons [[pt0, pt0, pt0], [pt0, pt0, pt0]] false = some m ∧
        m.faces.length = (3 - 1) * (2 - 1)) ∧
    (3 = 1 → mesh_from_polygons [[pt0, pt0, pt0], [pt0, pt0, pt0]] false = none) :=
  mesher_open_face_count [[pt0, pt0, pt0], [pt0, pt0, pt0]] 2 3 rfl
    (by intro q hq; fin_cases hq <;> rfl) (by decide)

/-! ## Claim C2 -/

/-- Claim C2 counterexample: for N = 3 slices of P = 2 points with
closed=True, the produced face [4,1,2,4,3] joins flattened vertices
(0,1), (1,0), (2,0), (1,1) — it crosses into the next slice instead of
wrapping back to the first vertex of the same slice, and is not the spec's
face for any (slice k, vertex j). -/
theorem mesher_wrap_face_cex :
    (mesh_from_polygons [[pt0, pt0], [pt0, pt0], [pt0, pt0]] true).map
        (fun m => m.faces)
      = some [[4, 0, 1, 3, 2], [4, 1, 2, 4, 3], [4, 2, 3, 5, 4]] ∧
    ¬ ∃ k < 2, ∃ j < 2, ([4, 1, 2, 4, 3] : List ℕ) = spec_face 2 k j :=
  ⟨rfl, by decide⟩

/-- Claim C2 (amended): the vertex buffer is the flattened input, and every
produced face is quad_face P i = [4, i, i+1, P+i+1, P+i] over flattened
indices for some i < P*(N-1) - 1; for i = k*P + j with j + 1 < P this
agrees with the spec's face (i,j) -> (i,j+1) -> (i+1,j+1) -> (i+1,j), but
at j = P - 1 the successor index i+1 crosses into the next slice instead of
wrapping back to the first vertex of the same slice. -/
theorem mesher_faces_structure {α : Type} (pts : List (List α)) (close : Bool)
    (m : PolyMesh α) (h : mesh_from_polygons pts close = some m) :
    m.vertices = pts.flatten ∧
    (∀ f ∈ m.faces, ∃ i, i < (pts.headD []).length * (pts.length - 1) - 1 ∧
      f = quad_face (pts.headD []).length i) ∧
    (∀ P k j : ℕ, j + 1 < P → quad_face P (k * P + j) = spec_face P k j) := by
  refine ⟨?_, ?_, ?_⟩
  · simp only [mesh_from_polygons] at h
    by_cases hemp : (((List.range ((pts.headD []).length * (pts.length - 1) - 1)).filter
        (fun i => close || !(i % (pts.headD []).length == (pts.headD []).length - 1))).map
      (quad_face (pts.headD []).length)).isEmpty
    · rw [if_pos hemp] at h
      exact absurd h (by simp)
    · rw [if_neg hemp] at h
      have := Option.some.inj h
      rw [← this]
  · intro f hf
    simp only [mesh_from_polygons] at h
    by_cases hemp : (((List.range ((pts.headD []).length * (pts.length - 1) - 1)).filter
        (fun i => close || !(i % (pts.headD []).length == (pts.headD []).length - 1))).map
      (quad_face (pts.headD []).length)).isEmpty
    · rw [if_pos hemp] at h
      exact absurd h (by simp)
    · rw [if_neg hemp] at h
      have hm := Option.some.inj h
      rw [← hm] at hf
      simp only [List.mem_map] at hf
      obtain ⟨i, hi, hfi⟩ := hf
      have hir : i ∈ List.range ((pts.headD []).length * (pts.length - 1) - 1) :=
        List.mem_of_mem_filter hi
      exact ⟨i, List.mem_range.mp hir, hfi.symm⟩
  · intro P k j hj
    have hmod : (j + 1) % P = j + 1 := Nat.mod_eq_of_lt hj
    simp only [quad_face, spec_face, List.cons.injEq, and_true, hmod, Nat.succ_mul]
    refine ⟨trivial, trivial, by omega, ?_, ?_⟩
    · generalize k * P = a
      omega
    · generalize k * P = a
      omega

/-- Witness for mesher_faces_structure, at a concrete 2-slice, 2-point
closed input. -/
theorem mesher_faces_structure_witness :
    (PolyMesh.mk [pt0, pt0, pt0, pt0] [[4, 0, 1, 3, 2]]).vertices
        = ([[pt0, pt0], [pt0, pt0]] : List (List Point)).flatten ∧
    (∀ f ∈ (PolyMesh.mk ([pt0, pt0, pt0, pt0] : List Point) [[4, 0, 1, 3, 2]]).faces,
      ∃ i, i < ([[pt0, pt0], [pt0, pt0]].headD []).length
            * (([[pt0, pt0], [pt0, pt0]] : List (List Point)).length - 1) - 1 ∧
        f = quad_face ([[pt0, pt0], [pt0, pt0]].headD []).length i) ∧
    (∀ P k j : ℕ, j + 1 < P → quad_face P (k * P + j) = spec_face P k j) :=
  mesher_faces_structure [[pt0, pt0], [pt0, pt0]] true
    (PolyMesh.mk [pt0, pt0, pt0, pt0] [[4, 0, 1, 3, 2]]) rfl

/-! ## Claim C4 -/

/-- Claim C4 counterexample: the source samples np.linspace(0, 2*pi, 20)
with the endpoint included, so the parameter runs over the closed interval
[0, 2*pi] with spacing 2*pi/19, and the final point (t = 2*pi) duplicates
the first (t = 0): for the unit circle at the origin with theta = 0 both
are (1, 0, 0). -/
theorem ellipse_duplicate_endpoint_cex :
    (ellipse 1 1 0 0 0 0 0 0)[19]? = (ellipse 1 1 0 0 0 0 0 0)[0]? ∧
    (ellipse 1 1 0 0 0 0 0 0)[0]? = some ((1 : ℝ), (0 : ℝ), (0 : ℝ)) := by
  have h19 : (0:ℝ) + (2 * Real.pi - 0) * ((19:ℕ) : ℝ) / (((20:ℕ) : ℝ) - 1)
      = 2 * Real.pi := by
    norm_num
  have h0 : (0:ℝ) + (2 * Real.pi - 0) * ((0:ℕ) : ℝ) / (((20:ℕ) : ℝ) - 1) = 0 := by
    norm_num
  constructor
  · rw [ellipse, ellipse_points_xz, linspace]
    simp only [List.getElem?_map]
    rw [List.getElem?_range (by norm_num : (19:ℕ) < 20),
      List.getElem?_range (by norm_num : (0:ℕ) < 20)]
    simp only [Option.map_some']
    rw [h19, h0, Real.cos_two_pi, Real.sin_two_pi, Real.cos_zero, Real.sin_zero]
  · rw [ellipse, ellipse_points_xz, linspace]
    simp only [List.getElem?_map]
    rw [List.getElem?_range (by norm_num : (0:ℕ) < 20)]
    simp only [Option.map_some']
    rw [h0, Real.cos_zero, Real.sin_zero]
    simp only [rotZ, translateP, Real.cos_zero, Real.sin_zero]
    norm_num

/-- Claim C4 (amended): the ellipse generator always emits 20 points,
equidistant in parameter angle with spacing 2*pi/19 over the closed
interval [0, 2*pi] (np.linspace with its default endpoint): point k is the
rotated and translated image of
(rxy*cos(2*pi*k/19) + beam_xy, 0, rz*sin(2*pi*k/19) + beam_z), so the
final point explicitly duplicates the first. -/
theorem ellipse_sampling (rxy rz bxy bz x y z theta : ℝ) :
    (ellipse rxy rz bxy bz x y z theta).length = 20 ∧
    (∀ k : ℕ, k < 20 →
      (ellipse rxy rz bxy bz x y z theta)[k]? =
        some (translateP (x, y, z) (rotZ theta
          (rxy * Real.cos (2 * Real.pi * (k : ℝ) / 19) + bxy, 0,
           rz * Real.sin (2 * Real.pi * (k : ℝ) / 19) + bz)))) ∧
    (ellipse rxy rz bxy bz x y z theta)[19]? =
      (ellipse rxy rz bxy bz x y z theta)[0]? := by
  refine ⟨?_, ?_, ?_⟩
  · rw [ellipse, ellipse_points_xz, linspace]
    rw [List.length_map, List.length_map, List.length_map, List.length_map,
      List.length_range]
  · intro k hk
    have ht : (0:ℝ) + (2 * Real.pi - 0) * (k : ℝ) / (((20:ℕ) : ℝ) - 1)
        = 2 * Real.pi * (k : ℝ) / 19 := by
      norm_num
    rw [ellipse, ellipse_points_xz, linspace]
    rw [List.getElem?_map, List.getElem?_map, List.getElem?_map, List.getElem?_map,
      List.getElem?_range hk]
    simp only [Option.map_some']
    rw [ht]
  · have h19 : (0:ℝ) + (2 * Real.pi - 0) * ((19:ℕ) : ℝ) / (((20:ℕ) : ℝ) - 1)
        = 2 * Real.pi := by
      norm_num
    have h0 : (0:ℝ) + (2 * Real.pi - 0) * ((0:ℕ) : ℝ) / (((20:ℕ) : ℝ) - 1) = 0 := by
      norm_num
    rw [ellipse, ellipse_points_xz, linspace]
    simp only [List.getElem?_map]
    rw [List.getElem?_range (by norm_num : (19:ℕ) < 20),
      List.getElem?_range (by norm_num : (0:ℕ) < 20)]
    simp only [Option.map_some']
    rw [h19, h0, Real.cos_two_pi, Real.sin_two_pi, Real.cos_zero, Real.sin_zero]

/-- Witness for ellipse_sampling, instantiated at a concrete ellipse and
concrete point index. -/
theorem ellipse_sampling_witness :
    (ellipse 2 1 0 0 0 0 0 1)[3]? =
      some (translateP (0, 0, 0) (rotZ 1
        (2 * Real.cos (2 * Real.pi * ((3:ℕ) : ℝ) / 19) + 0, 0,
         1 * Real.sin (2 * Real.pi * ((3:ℕ) : ℝ) / 19) + 0))) :=
  (ellipse_sampling 2 1 0 0 0 0 0 1).2.1 3 (by norm_num)

/-! ## Claim C9 -/

/-- Claim C9 (confirmed): the rectangular screen generator emits exactly the
4 corners (xmax,ymin), (xmin,ymin), (xmin,ymax), (xmax,ymax) in the local
frame, each rotated then translated, and the open variant (close=False)
computes the same screen with 0 in place of x_max, regardless of the x_max
argument supplied. -/
theorem rectangular_screen_corners (x_min x_max y_min y_max x y z theta : ℝ) :
    make_rectangular_screen x_min x_max y_min y_max x y z theta true =
      [translateP (x, y, z) (rotZ theta (x_max, 0, y_min)),
       translateP (x, y, z) (rotZ theta (x_min, 0, y_min)),
       translateP (x, y, z) (rotZ theta (x_min, 0, y_max)),
       translateP (x, y, z) (rotZ theta (x_max, 0, y_max))] ∧
    (make_rectangular_screen x_min x_max y_min y_max x y z theta true).length = 4 ∧
    make_rectangular_screen x_min x_max y_min y_max x y z theta false =
      make_rectangular_screen x_min 0 y_min y_max x y z theta true :=
  ⟨rfl, rfl, rfl⟩

/-! ## Claim C10 -/

/-- For any rotation angle and centre, composing the local points with the
z-axis rotation and the translation leaves the third coordinate at
(centre's third coordinate) + (local third coordinate). -/
lemma third_coord_map (theta : ℝ) (c : Point) (l : List Point) (k : ℕ) :
    (((l.map (rotZ theta)).map (translateP c))[k]?).map (fun p => p.2.2) =
      (l[k]?).map (fun p => c.2.2 + p.2.2) := by
  rw [List.getElem?_map, List.getElem?_map, Option.map_map, Option.map_map]
  cases h : l[k]? with
  | none => rfl
  | some p =>
    simp only [Option.map_some', Function.comp]
    rw [show (translateP c (rotZ theta p)).2.2 = c.2.2 + p.2.2 by
      simp only [translateP, rotZ]
      ring]

/-- Claim C10 (confirmed): for all three cross-section generators and every
point index k, the third world coordinate of output point k is the z centre
argument plus that point's local vertical coordinate — the single Euler
rotation about the scipy 'z' axis never changes the third component. -/
theorem generators_preserve_vertical
    (rxy rz bxy bz x y z theta : ℝ) (xs ys : List ℝ)
    (x_min x_max y_min y_max : ℝ) (close : Bool) (k : ℕ) :
    (((ellipse rxy rz bxy bz x y z theta)[k]?).map (fun p => p.2.2) =
      ((ellipse_points_xz rxy rz bxy bz)[k]?).map (fun p => z + p.2.2)) ∧
    (((make_screen xs ys x y z theta)[k]?).map (fun p => p.2.2) =
      ((make_screen_points_xz xs ys)[k]?).map (fun p => z + p.2.2)) ∧
    (((make_rectangular_screen x_min x_max y_min y_max x y z theta close)[k]?).map
        (fun p => p.2.2) =
      ((rect_points_xz x_min x_max y_min y_max close)[k]?).map (fun p => z + p.2.2)) :=
  ⟨third_coord_map theta (x, y, z) (ellipse_points_xz rxy rz bxy bz) k,
   third_coord_map theta (x, y, z) (make_screen_points_xz xs ys) k,
   third_coord_map theta (x, y, z) (rect_points_xz x_min x_max y_min y_max close) k⟩

/-! ## Claim C6 -/

/-- Claim C6 (confirmed): per slice the envelope sizer computes
sigx = n_sigmas * sqrt(nemitt_x / gamma0 * betx) + |dx| * sigma_delta and
sigy likewise (these are the sigx/sigy columns of compute_beam_size), and
for betx, bety >= 0 and gamma0 > 0 both results are nonnegative. -/
theorem beam_size_nonneg (g bx by2 dx dy : ℝ) (hbx : 0 ≤ bx) (hby : 0 ≤ by2)
    (hg : 0 < g) :
    sigx_of g bx dx = n_sigmas * Real.sqrt (nemitt_x / g * bx) + |dx| * sigma_delta ∧
    sigy_of g by2 dy = n_sigmas * Real.sqrt (nemitt_y / g * by2) + |dy| * sigma_delta ∧
    (∀ (survey : List SurveyRow) (twiss : List TwissRow),
      (compute_beam_size survey twiss).2.2.1 =
        twiss.map (fun r => sigx_of r.gamma0 r.betx r.dx) ∧
      (compute_beam_size survey twiss).2.2.2.2.1 =
        twiss.map (fun r => sigy_of r.gamma0 r.bety r.dy)) ∧
    0 ≤ sigx_of g bx dx ∧ 0 ≤ sigy_of g by2 dy := by
  refine ⟨rfl, rfl, fun _ _ => ⟨rfl, rfl⟩, ?_, ?_⟩
  · rw [sigx_of, n_sigmas, sigma_delta]
    positivity
  · rw [sigy_of, n_sigmas, sigma_delta]
    positivity

/-- Witness for beam_size_nonneg at concrete inputs. -/
theorem beam_size_nonneg_witness :
    (0:ℝ) ≤ 4 ∧ (0:ℝ) ≤ 1 ∧ (0:ℝ) < 2 ∧
    (sigx_of 2 4 (-1) = n_sigmas * Real.sqrt (nemitt_x / 2 * 4) + |(-1:ℝ)| * sigma_delta ∧
     sigy_of 2 1 5 = n_sigmas * Real.sqrt (nemitt_y / 2 * 1) + |(5:ℝ)| * sigma_delta ∧
     (∀ (survey : List SurveyRow) (twiss : List TwissRow),
       (compute_beam_size survey twiss).2.2.1 =
         twiss.map (fun r => sigx_of r.gamma0 r.betx r.dx) ∧
       (compute_beam_size survey twiss).2.2.2.2.1 =
         twiss.map (fun r => sigy_of r.gamma0 r.bety r.dy)) ∧
     0 ≤ sigx_of 2 4 (-1) ∧ 0 ≤ sigy_of 2 1 5) :=
  ⟨by norm_num, by norm_num, by norm_num,
   beam_size_nonneg 2 4 1 (-1) 5 (by norm_num) (by norm_num) (by norm_num)⟩

/-! ## Claim C7 -/

lemma mapM_option_length {α β : Type} (f : α → Option β) :
    ∀ l : List α, (∀ a ∈ l, (f a).isSome) →
      ∃ ys, l.mapM f = some ys ∧ ys.length = l.length ∧
        ∀ n : ℕ, ys[n]? = (l[n]?).bind f := by
  intro l
  induction l with
  | nil =>
    intro _
    exact ⟨[], rfl, rfl, fun n => rfl⟩
  | cons a l ih =>
    intro h
    obtain ⟨b, hb⟩ := Option.isSome_iff_exists.mp (h a (List.mem_cons_self a l))
    obtain ⟨ys, hys, hlen, hidx⟩ := ih (fun q hq => h q (List.mem_cons_of_mem a hq))
    refine ⟨b :: ys, ?_, by rw [List.length_cons, List.length_cons, hlen], ?_⟩
    · rw [List.mapM_cons, hb, hys]
      rfl
    · intro n
      cases n with
      | zero =>
        rw [List.getElem?_cons_zero, List.getElem?_cons_zero, Option.some_bind, hb]
      | succ n =>
        rw [List.getElem?_cons_succ, List.getElem?_cons_succ, hidx n]

lemma beam_ellipse_at_isSome (sigx sigy x y sx sy sz theta : List ℝ) (scale : ℝ)
    (i : ℕ) (h1 : i < sigx.length) (h2 : i < sigy.length) (h3 : i < x.length)
    (h4 : i < y.length) (h5 : i < sx.length) (h6 : i < sy.length)
    (h7 : i < sz.length) (h8 : i < theta.length) :
    (beam_ellipse_at sigx sigy x y sx sy sz theta scale i).isSome := by
  rw [beam_ellipse_at, List.getElem?_eq_getElem h1, List.getElem?_eq_getElem h2,
    List.getElem?_eq_getElem h3, List.getElem?_eq_getElem h4,
    List.getElem?_eq_getElem h5, List.getElem?_eq_getElem h6,
    List.getElem?_eq_getElem h7, List.getElem?_eq_getElem h8]
  rfl

lemma orbit_center_at_isSome (x y sx sy sz theta : List ℝ) (scale : ℝ) (i : ℕ)
    (h3 : i < x.length) (h4 : i < y.length) (h5 : i < sx.length)
    (h6 : i < sy.length) (h7 : i < sz.length) (h8 : i < theta.length) :
    (orbit_center_at x y sx sy sz theta scale i).isSome := by
  rw [orbit_center_at, List.getElem?_eq_getElem h3, List.getElem?_eq_getElem h4,
    List.getElem?_eq_getElem h5, List.getElem?_eq_getElem h6,
    List.getElem?_eq_getElem h7, List.getElem?_eq_getElem h8]
  rfl

/-- Claim C7 (confirmed): when the selected twiss and survey tables differ
in length by one, the beam-size pipeline truncates both per-slice outputs
(ellipse cross-sections and orbit centerline points) to the shorter common
length and succeeds — no lookup fails because of the mismatch. -/
theorem beam_size_pipeline_truncates (twiss : List TwissRow) (survey : List SurveyRow)
    (scale : ℝ)
    (h : twiss.length = survey.length + 1 ∨ survey.length = twiss.length + 1) :
    ∃ pts center, plot_beam_size_pts twiss survey scale = some (pts, center) ∧
      pts.length = min twiss.length survey.length ∧
      center.length = min twiss.length survey.length := by
  simp only [plot_beam_size_pts, compute_beam_size]
  have hmin : min (twiss.map (fun r => r.x)).length
      (survey.map (fun r => r.theta)).length = min twiss.length survey.length := by
    rw [List.length_map, List.length_map]
  rw [hmin]
  obtain ⟨ps, hps, hpl, hpidx⟩ := mapM_option_length
    (beam_ellipse_at (twiss.map (fun r => sigx_of r.gamma0 r.betx r.dx))
      (twiss.map (fun r => sigy_of r.gamma0 r.bety r.dy))
      (twiss.map (fun r => r.x)) (twiss.map (fun r => r.y))
      (survey.map (fun r => r.X)) (survey.map (fun r => r.Y))
      (survey.map (fun r => r.Z)) (survey.map (fun r => r.theta)) scale)
    (List.range (min twiss.length survey.length))
    (fun i hi => by
      have hilt : i < min twiss.length survey.length := List.mem_range.mp hi
      have ht : i < twiss.length := by omega
      have hs : i < survey.length := by omega
      exact beam_ellipse_at_isSome _ _ _ _ _ _ _ _ scale i
        (by rw [List.length_map]; exact ht) (by rw [List.length_map]; exact ht)
        (by rw [List.length_map]; exact ht) (by rw [List.length_map]; exact ht)
        (by rw [List.length_map]; exact hs) (by rw [List.length_map]; exact hs)
        (by rw [List.length_map]; exact hs) (by rw [List.length_map]; exact hs))
  obtain ⟨cs, hcs, hcl, hcidx⟩ := mapM_option_length
    (orbit_center_at (twiss.map (fun r => r.x)) (twiss.map (fun r => r.y))
      (survey.map (fun r => r.X)) (survey.map (fun r => r.Y))
      (survey.map (fun r => r.Z)) (survey.map (fun r => r.theta)) scale)
    (List.range (min twiss.length survey.length))
    (fun i hi => by
      have hilt : i < min twiss.length survey.length := List.mem_range.mp hi
      have ht : i < twiss.length := by omega
      have hs : i < survey.length := by omega
      exact orbit_center_at_isSome _ _ _ _ _ _ scale i
        (by rw [List.length_map]; exact ht) (by rw [List.length_map]; exact ht)
        (by rw [List.length_map]; exact hs) (by rw [List.length_map]; exact hs)
        (by rw [List.length_map]; exact hs) (by rw [List.length_map]; exact hs))
  refine ⟨ps, cs, ?_, ?_, ?_⟩
  · rw [hps, hcs]
    rfl
  · rw [hpl, List.length_range]
  · rw [hcl, List.length_range]

/-- Witness for beam_size_pipeline_truncates: a two-row twiss table against
a one-row survey table (off by one) truncates both outputs to length 1. -/
theorem beam_size_pipeline_truncates_witness :
    ∃ pts center,
      plot_beam_size_pts
        [TwissRow.mk 0 0 0 1 1 0 0 1, TwissRow.mk 1 0 0 1 1 0 0 1]
        [SurveyRow.mk 0 0 0 0] 1 = some (pts, center) ∧
      pts.length = min
        ([TwissRow.mk 0 0 0 1 1 0 0 1, TwissRow.mk 1 0 0 1 1 0 0 1] : List TwissRow).length
        ([SurveyRow.mk 0 0 0 0] : List SurveyRow).length ∧
      center.length = min
        ([TwissRow.mk 0 0 0 1 1 0 0 1, TwissRow.mk 1 0 0 1 1 0 0 1] : List TwissRow).length
        ([SurveyRow.mk 0 0 0 0] : List SurveyRow).length :=
  beam_size_pipeline_truncates
    [TwissRow.mk 0 0 0 1 1 0 0 1, TwissRow.mk 1 0 0 1 1 0 0 1]
    [SurveyRow.mk 0 0 0 0] 1 (Or.inl rfl)

/-! ## Claim C8 -/

lemma aper_indices_enumFrom_length :
    ∀ (l : List Bool) (n : ℕ),
      (((List.enumFrom n l).filter (fun q => q.2)).map (fun q => q.1)).length
        = l.count true := by
  intro l
  induction l with
  | nil => intro n; rfl
  | cons b l ih =>
    intro n
    rw [List.enumFrom_cons, List.filter_cons]
    cases b with
    | false =>
      simp only [Bool.false_eq_true, if_false, List.count_cons, ih]
      simp
    | true =>
      simp only [if_true, List.map_cons, List.length_cons, ih, List.count_cons]
      simp

lemma aper_indices_length (mask : List Bool) :
    (aper_indices mask).length = mask.count true :=
  aper_indices_enumFrom_length mask 0

lemma enumFrom_fst_lt : ∀ (l : List Bool) (n : ℕ),
    (List.enumFrom n l).Pairwise (fun a b => a.1 < b.1) := by
  intro l
  induction l with
  | nil => intro n; exact List.Pairwise.nil
  | cons b l ih =>
    intro n
    rw [List.enumFrom_cons]
    refine List.Pairwise.cons ?_ (ih (n + 1))
    intro q hq
    have := List.mem_enumFrom hq
    omega

lemma aper_indices_sorted (mask : List Bool) :
    (aper_indices mask).Pairwise (fun a b => a < b) := by
  rw [aper_indices, List.pairwise_map]
  exact ((enumFrom_fst_lt mask 0).sublist (List.filter_sublist _))

lemma aper_indices_mem (mask : List Bool) (i : ℕ) :
    i ∈ aper_indices mask ↔ mask[i]? = some true := by
  rw [aper_indices]
  constructor
  · intro h
    obtain ⟨q, hq, hqi⟩ := List.mem_map.mp h
    obtain ⟨hqe, hqt⟩ := List.mem_filter.mp hq
    have := List.mem_enum_iff_getElem?.mp hqe
    rw [← hqi, this]
    cases q2 : q.2 with
    | false => rw [q2] at hqt; exact absurd hqt (by simp)
    | true => rw [← q2]
  · intro h
    refine List.mem_map.mpr ⟨(i, true), List.mem_filter.mpr ⟨?_, rfl⟩, rfl⟩
    exact List.mem_enum_iff_getElem?.mpr h

lemma make_screen_at_isSome (xs ys : List (List ℝ)) (sx sy sz theta : List ℝ)
    (scale : ℝ) (i : ℕ) (h1 : i < xs.length) (h2 : i < ys.length)
    (h3 : i < sx.length) (h4 : i < sy.length) (h5 : i < sz.length)
    (h6 : i < theta.length) :
    (make_screen_at xs ys sx sy sz theta scale i).isSome := by
  rw [make_screen_at, List.getElem?_eq_getElem h1, List.getElem?_eq_getElem h2,
    List.getElem?_eq_getElem h3, List.getElem?_eq_getElem h4,
    List.getElem?_eq_getElem h5, List.getElem?_eq_getElem h6]
  rfl

/-- Claim C8 (confirmed): with all column arrays as long as the mask, the
aperture pipeline succeeds and builds cross-sections exactly for the rows
whose mask entry is True, in their original relative order (the selected
indices are strictly increasing) by index compaction: the output has one
entry per True row (a mask [true, false, true] gives 2), entry n being the
beam screen of the n-th selected row. -/
theorem apertures_mask_filtering (mask : List Bool) (xs ys : List (List ℝ))
    (sx sy sz theta : List ℝ) (scale : ℝ)
    (hxs : xs.length = mask.length) (hys : ys.length = mask.length)
    (hsx : sx.length = mask.length) (hsy : sy.length = mask.length)
    (hsz : sz.length = mask.length) (htheta : theta.length = mask.length) :
    ∃ pts, plot_apertures_pts mask xs ys sx sy sz theta scale = some pts ∧
      pts.length = mask.count true ∧
      (∀ n : ℕ, pts[n]? = ((aper_indices mask)[n]?).bind
        (make_screen_at xs ys sx sy sz theta scale)) ∧
      (aper_indices mask).Pairwise (fun a b => a < b) ∧
      (∀ i, i ∈ aper_indices mask ↔ mask[i]? = some true) := by
  obtain ⟨pts, hp, hl, hidx⟩ := mapM_option_length
    (make_screen_at xs ys sx sy sz theta scale) (aper_indices mask)
    (fun i hi => by
      have hmem := (aper_indices_mem mask i).mp hi
      have hsome : (mask[i]?).isSome := by
        rw [hmem]
        rfl
      have hlt : i < mask.length := by
        by_contra hc
        rw [List.getElem?_eq_none (by omega)] at hsome
        simp at hsome
      exact make_screen_at_isSome xs ys sx sy sz theta scale i
        (by omega) (by omega) (by omega) (by omega) (by omega) (by omega))
  exact ⟨pts, hp, by rw [hl, aper_indices_length], hidx,
    aper_indices_sorted mask, aper_indices_mem mask⟩

/-- Witness for apertures_mask_filtering: the validity mask
[true, false, true] yields exactly 2 cross-sections. -/
theorem apertures_mask_filtering_witness :
    ∃ pts, plot_apertures_pts [true, false, true] [[], [], []] [[], [], []]
        [0, 0, 0] [0, 0, 0] [0, 0, 0] [0, 0, 0] 1 = some pts ∧
      pts.length = ([true, false, true] : List Bool).count true ∧
      (∀ n : ℕ, pts[n]? = ((aper_indices [true, false, true])[n]?).bind
        (make_screen_at [[], [], []] [[], [], []] [0, 0, 0] [0, 0, 0] [0, 0, 0]
          [0, 0, 0] 1)) ∧
      (aper_indices [true, false, true]).Pairwise (fun a b => a < b) ∧
      (∀ i, i ∈ aper_indices [true, false, true] ↔
        ([true, false, true] : List Bool)[i]? = some true) :=
  apertures_mask_filtering [true, false, true] [[], [], []] [[], [], []]
    [0, 0, 0] [0, 0, 0] [0, 0, 0] [0, 0, 0] 1 rfl rfl rfl rfl rfl rfl
